import Mathlib

/-!
Verification of the TypeScript EVM interpreter in `src/typescript/evm.ts`
(the full revision with memory, storage and call handling; line numbers
below refer to that revision) against its natural-language specification.

The embedding models JS `bigint` values as `Int`.  Stack words are always
nonnegative — they are produced by `PUSH` immediates or passed through
`toUnsigned` — so the bitwise helpers model the nonnegative fragment of
JS's infinite two's-complement operators and say so in their doc comments.
-/

namespace Evm

/-- Word bound, from `const UINT256_CEIL = 2n**256n;`. -/
def UINT256_CEIL : Int := 2 ^ 256

/-- From `const toBigInt = (val: boolean): bigint => val ? 1n : 0n`. -/
def toBigInt (val : Bool) : Int := if val then 1 else 0

/-- From `const toSigned = (val) => val < UINT256_CEIL / 2n ? val : (UINT256_CEIL - val) * -1n;`. -/
def toSigned (val : Int) : Int :=
  if val < UINT256_CEIL / 2 then val else (UINT256_CEIL - val) * (-1)

/-- From `toUnsigned` (evm.ts 676-686).  JS `%` on `bigint` is the
truncated remainder, `Int.tmod`. -/
def toUnsigned (val : Int) : Int :=
  if UINT256_CEIL ≤ val then Int.tmod val UINT256_CEIL
  else if val < 0 then UINT256_CEIL + Int.tmod val UINT256_CEIL
  else val

/-- JS `x << y` on `bigint`: exact multiplication by `2^y`; a negative
shift count shifts the other way (ECMA-262 `BigInt::leftShift`). -/
def jsShl (x y : Int) : Int :=
  if 0 ≤ y then x * 2 ^ y.toNat else Int.fdiv x (2 ^ (-y).toNat)

/-- JS `x >> y` on `bigint`: arithmetic right shift, i.e. floor division
by `2^y`; a negative count shifts left. -/
def jsShr (x y : Int) : Int :=
  if 0 ≤ y then Int.fdiv x (2 ^ y.toNat) else x * 2 ^ (-y).toNat

/-- JS `x & y` on nonnegative `bigint`s (every `&` in the source is applied
to a stack word and a nonnegative mask). -/
def jsAnd (x y : Int) : Int := (x.toNat &&& y.toNat : Nat)

/-- JS `x | y` on nonnegative `bigint`s. -/
def jsOr (x y : Int) : Int := (x.toNat ||| y.toNat : Nat)

/-- JS `x ^ y` on nonnegative `bigint`s. -/
def jsXor (x y : Int) : Int := (x.toNat ^^^ y.toNat : Nat)

/-- From `const addFn = (op1, op2) => op1 + op2;`. -/
def addFn (op1 op2 : Int) : Int := op1 + op2

/-- From `const subFn = (op1, op2) => op1 - op2;`. -/
def subFn (op1 op2 : Int) : Int := op1 - op2

/-- From `const mulFn = (op1, op2) => op1 * op2;`. -/
def mulFn (op1 op2 : Int) : Int := op1 * op2

/-- From `const divFn = (op1, op2) => op2 == 0n ? 0n : op1 / op2;`.
JS `/` on `bigint` truncates toward zero, `Int.tdiv`. -/
def divFn (op1 op2 : Int) : Int := if op2 = 0 then 0 else Int.tdiv op1 op2

/-- From `const modFn = (val, mod) => mod == 0n ? 0n : val % mod;`. -/
def modFn (val md : Int) : Int := if md = 0 then 0 else Int.tmod val md

/-- From `const expFn = (val, exp) => val ** exp;`.  Exponents are stack
words, hence nonnegative. -/
def expFn (val e : Int) : Int := val ^ e.toNat

/-- From `sextFn` (evm.ts 700-703).  JS precedence makes
`val >> ((byteNum + 1n) * 8n) - 1n` a shift by `(byteNum + 1) * 8 - 1`,
and the branch fires only when the whole shifted value equals `1n`. -/
def sextFn (byteNum val : Int) : Int :=
  if jsShr val ((byteNum + 1) * 8 - 1) = 1 then jsOr (UINT256_CEIL - 1) val else val

/-- From `const sdivFn = (op1, op2) => divFn(toSigned(op1), toSigned(op2));`. -/
def sdivFn (op1 op2 : Int) : Int := divFn (toSigned op1) (toSigned op2)

/-- From `const smodFn = (val, mod) => modFn(toSigned(val), toSigned(mod));`. -/
def smodFn (val md : Int) : Int := modFn (toSigned val) (toSigned md)

/-- From `const ltFn = (op1, op2) => toBigInt(op1 < op2);`. -/
def ltFn (op1 op2 : Int) : Int := toBigInt (decide (op1 < op2))

/-- From `const gtFn = (op1, op2) => toBigInt(op1 > op2);`. -/
def gtFn (op1 op2 : Int) : Int := toBigInt (decide (op2 < op1))

/-- From `const sltFn = (op1, op2) => ltFn(toSigned(op1), toSigned(op2));`. -/
def sltFn (op1 op2 : Int) : Int := ltFn (toSigned op1) (toSigned op2)

/-- From `const sgtFn = (op1, op2) => gtFn(toSigned(op1), toSigned(op2));`. -/
def sgtFn (op1 op2 : Int) : Int := gtFn (toSigned op1) (toSigned op2)

/-- From `const eqFn = (op1, op2) => toBigInt(op1 == op2);`. -/
def eqFn (op1 op2 : Int) : Int := toBigInt (decide (op1 = op2))

/-- From `const andFn = (op1, op2) => op1 & op2;`. -/
def andFn (op1 op2 : Int) : Int := jsAnd op1 op2

/-- From `const orFn = (op1, op2) => op1 | op2;`. -/
def orFn (op1 op2 : Int) : Int := jsOr op1 op2

/-- From `const xorFn = (op1, op2) => op1 ^ op2;`. -/
def xorFn (op1 op2 : Int) : Int := jsXor op1 op2

/-- From `shlFn` (evm.ts 714-717): `mask = (UINT256_CEIL - 1n) >> bitNum`
and the result is `(val & mask) << bitNum`. -/
def shlFn (bitNum val : Int) : Int :=
  jsShl (jsAnd val (jsShr (UINT256_CEIL - 1) bitNum)) bitNum

/-- From `const shrFn = (bitNum, val) => val >> bitNum;`. -/
def shrFn (bitNum val : Int) : Int := jsShr val bitNum

/-- From `const sarFn = (bitNum, val) => shrFn(bitNum, toSigned(val));`. -/
def sarFn (bitNum val : Int) : Int := shrFn bitNum (toSigned val)

/-- From `byteFn` (evm.ts 720). -/
def byteFn (byteNum val : Int) : Int := jsAnd (shrFn (256 - 8 - byteNum * 8) val) 0xFF

/-- From `const isPush = (opcode) => opcode >= OPCODES.PUSH1 && opcode <= OPCODES.PUSH32;`. -/
def isPush (opcode : Nat) : Bool := decide (0x60 ≤ opcode ∧ opcode ≤ 0x7f)

/-- From `isDup`. -/
def isDup (opcode : Nat) : Bool := decide (0x80 ≤ opcode ∧ opcode ≤ 0x8f)

/-- From `isSwap`. -/
def isSwap (opcode : Nat) : Bool := decide (0x90 ≤ opcode ∧ opcode ≤ 0x9f)

/-- From `isLog`. -/
def isLog (opcode : Nat) : Bool := decide (0xa0 ≤ opcode ∧ opcode ≤ 0xa4)

/-- From `isCreate`. -/
def isCreate (opcode : Nat) : Bool := decide (opcode = 0xf0 ∨ opcode = 0xf5)

/-- From `exec2` (evm.ts 749-773): pops two operands per operation, applies
`toUnsigned` on the final iteration only, and reports an error (`none`)
when an operand is `undefined`. -/
def exec2 : List (Int → Int → Int) → List Int → Option (List Int)
  | [], stack => some stack
  | opFn :: rest, op1 :: op2 :: stack =>
    let raw := opFn op1 op2
    let result := if rest.isEmpty then toUnsigned raw else raw
    exec2 rest (result :: stack)
  | _ :: _, _ => none

/-- Size of the backing `Uint8Array`, from `constructor(size = 1024 * 1024)`. -/
def memSize : Nat := 1024 * 1024

/-- The `Memory` class (evm.ts 591-622): a fixed-size zero-initialised byte
buffer plus the `msize` high-water mark. -/
structure Memory where
  data : Nat → Nat
  msize : Nat

/-- Fresh memory: `new Uint8Array(size)` is zero-filled, `msize = 0n`. -/
def Memory.empty : Memory := { data := fun _ => 0, msize := 0 }

/-- One assignment `this.data[idx] = b`: a write beyond the end of a
`Uint8Array` is silently ignored. -/
def Memory.writeByte (m : Memory) (idx b : Nat) : Memory :=
  if idx < memSize then { m with data := Function.update m.data idx b } else m

/-- The `for` loop of `Memory.store`: writes the `size` big-endian bytes of
`value` starting at `offset`; the byte written at the current offset is
`(value >> ((size - i - 1n) * 8n)) & 0xffn`. -/
def Memory.storeN (m : Memory) (offset value : Nat) : Nat → Memory
  | 0 => m
  | k + 1 => (m.writeByte offset ((value >>> (k * 8)) &&& 0xff)).storeN (offset + 1) value k

/-- From `updateMsize(offset, readSize = 0)`:
`Math.ceil((offset + readSize) / 32) * 32`, taken only when larger. -/
def Memory.updateMsize (m : Memory) (offset readSize : Nat) : Memory :=
  let offsetMsize := (offset + readSize + 31) / 32 * 32
  if m.msize < offsetMsize then { m with msize := offsetMsize } else m

/-- From `Memory.store(offset, value, size = 32n)`: note the trailing call is
`this.updateMsize(offset)` — the `readSize` argument is left at its default 0,
so the written length never enters the `msize` computation. -/
def Memory.store (m : Memory) (offset value size : Nat) : Memory :=
  (m.storeN offset value size).updateMsize offset 0

/-- The `for` loop of `Memory.load`: folds `value = (value << 8n) | data[offset + i]`. -/
def Memory.loadLoop (m : Memory) (offset value : Nat) : Nat → Nat
  | 0 => value
  | k + 1 => m.loadLoop (offset + 1) ((value <<< 8) ||| m.data offset) k

/-- From `Memory.load(offset, length = 32n)`, including the final
`this.updateMsize(offset, Number(length))`.  A read past the end of the
`Uint8Array` yields `undefined` and `BigInt(undefined)` throws, hence
`none` when any touched index is out of range. -/
def Memory.load (m : Memory) (offset length : Nat) : Option (Nat × Memory) :=
  if length = 0 ∨ offset + length ≤ memSize then
    some (m.loadLoop offset 0 length, m.updateMsize offset length)
  else none

/-- The module-level `Storage` (evm.ts 624-638, 731-732): a single JS object
shared by every frame; `this.data[key] = value` keys the object by the
decimal string of the bigint, which is injective, so an association list
with most-recent-write-first is an exact model. -/
abbrev Storage := List (Int × Int)

/-- From `Storage.store(key, value)`. -/
def Storage.store (s : Storage) (key value : Int) : Storage := (key, value) :: s

/-- From `Storage.load(key): return this.data[key] || 0n;`. -/
def Storage.load (s : Storage) (key : Int) : Int :=
  match s.find? (fun kv => kv.1 == key) with
  | some kv => kv.2
  | none => 0

/-- The `TransactionData` interface from `types.ts`. -/
structure TransactionData where
  address : Int
  caller : Int
  origin : Int
  gasPrice : Int
  value : Int
  data : List Nat

/-- The `OpResult` shape returned by `evm`: `{success, stack, return}`.
The `logs` field is omitted — no modelled opcode appends to it. -/
structure OpResult where
  success : Bool
  stack : List Int
  ret : Option Int

/-- From `error(opcode, stack, returnValue = undefined)`:
`{success: false, stack: [], return: returnValue}`. -/
def errorResult (ret : Option Int) : OpResult :=
  { success := false, stack := [], ret := ret }

/-- One frame of `evm` (evm.ts 734-747) plus the module-level storage:
`code`, the transaction envelope, `contextWritable`, and the mutable
locals `pc`, `stack`, `mem`, `returnValue`. -/
structure Machine where
  code : List Nat
  tx : TransactionData
  writable : Bool
  pc : Nat
  stack : List Int
  mem : Memory
  storage : Storage
  returnValue : Option Int

/-- The jump-destination pre-scan (evm.ts 781-786).  The source walks with
`i += isPush(opcode) ? 2 : 1`, i.e. it steps over exactly one immediate
byte for any PUSH opcode.  Structural fuel (one unit per loop iteration,
`code.length` always suffices because `i` grows by at least one). -/
def validJumpDestsAux (code : List Nat) : Nat → Nat → List Int
  | 0, _ => []
  | fuel + 1, i =>
    if h : i < code.length then
      let opcode := code.get ⟨i, h⟩
      let rest := validJumpDestsAux code fuel (i + (if isPush opcode then 2 else 1))
      if opcode = 0x5b then (i : Int) :: rest else rest
    else []

/-- The set `validJumpDestinations` of frame entry (as the list of added
`BigInt(i)` values, in walk order). -/
def validJumpDestinations (code : List Nat) : List Int :=
  validJumpDestsAux code code.length 0

/-- Modelled from the spec (§4.1), for comparison with the source's
`validJumpDestinations`: "linearly walk code; if `op == JUMPDEST` add `pc`
to the destination set; if `op ∈ PUSH1..PUSH32` skip the immediate
`(op − PUSH1 + 1)` bytes". -/
def specJumpDestsAux (code : List Nat) : Nat → Nat → List Int
  | 0, _ => []
  | fuel + 1, i =>
    if h : i < code.length then
      let opcode := code.get ⟨i, h⟩
      let rest := specJumpDestsAux code fuel (i + (if isPush opcode then opcode - 0x60 + 1 + 1 else 1))
      if opcode = 0x5b then (i : Int) :: rest else rest
    else []

/-- Modelled from the spec (§4.1): the valid-jump-destination set with
`(op − PUSH1 + 1)` immediate bytes skipped. -/
def specValidJumpDestinations (code : List Nat) : List Int :=
  specJumpDestsAux code code.length 0

/-- From `jump(destination)`: membership of the popped word in the
pre-computed set (`Set.has` compares bigints). -/
def jumpOk (code : List Nat) (destination : Int) : Bool :=
  (validJumpDestinations code).contains destination

/-- Collects `count` code bytes starting at index `i`, as the PUSX handler
reads them with `code[++pc]`; `none` when a read runs past the end of the
buffer (there `BigInt(undefined)` throws in the source). -/
def takeBytes (code : List Nat) (i : Nat) : Nat → Option (List Nat)
  | 0 => some []
  | k + 1 =>
    match code.get? i with
    | some b => (takeBytes code (i + 1) k).map (b :: ·)
    | none => none

/-- The PUSHX accumulator `argument = (argument << 8n) | BigInt(code[++pc])`. -/
def bytesToWord (bs : List Nat) : Nat :=
  bs.foldl (fun acc b => (acc <<< 8) ||| b) 0

/-- Result of dispatching one opcode.  `halt` is a `return` out of `evm`;
`unmodelled` marks behaviour outside this embedding: opcodes whose handler
needs keccak, the world-state map or a recursive sub-call
(SHA3, BALANCE, SELFBALANCE, CALLDATA*/CODE*/EXTCODE*, block accessors,
RETURNDATA*, CREATE/CREATE2 and CALL-family bodies, SELFDESTRUCT body,
LOG bodies), and the spots where the source dereferences `undefined` and
throws a TypeError. -/
inductive StepResult where
  | next (m : Machine)
  | halt (r : OpResult)
  | unmodelled

/-- A `case OPCODES.X: return exec2op(...)` arm.  The source returns the
`exec2` result from `evm` itself, so these opcodes end the frame even on
success, with `{success: true, stack}` (no `return`/`logs` fields). -/
def exec2Halt (ops : List (Int → Int → Int)) (m : Machine) : StepResult :=
  match exec2 ops m.stack with
  | some stack => .halt { success := true, stack := stack, ret := none }
  | none => .halt (errorResult none)

/-- One iteration of the `while (pc < code.length)` dispatch loop
(evm.ts 799-1217), given `opcode = code[pc]`.  Every non-halting branch
ends with the loop's trailing `pc++`. -/
def stepOp (m : Machine) (opcode : Nat) : StepResult :=
  if isPush opcode then
    -- PUSHX: reads `opcode - PUSH1 + 1` immediate bytes big-endian.
    match takeBytes m.code (m.pc + 1) (opcode - 0x60 + 1) with
    | some bs => .next { m with stack := (bytesToWord bs : Int) :: m.stack,
                                pc := m.pc + (opcode - 0x60 + 1) + 1 }
    | none => .unmodelled
  else if isDup opcode then
    let index := opcode - 0x80
    if index < m.stack.length then
      .next { m with stack := m.stack.getD index 0 :: m.stack, pc := m.pc + 1 }
    else
      -- `error(opcode, stack);` — the failure result is built but DISCARDED
      -- (no `return`), so the loop falls through to `pc++` and continues.
      .next { m with pc := m.pc + 1 }
  else if isSwap opcode then
    let index := opcode - 0x90 + 1
    if index < m.stack.length then
      .next { m with stack := (m.stack.set 0 (m.stack.getD index 0)).set index (m.stack.getD 0 0),
                     pc := m.pc + 1 }
    else
      -- same discarded `error(...)` as DUPX
      .next { m with pc := m.pc + 1 }
  else if isCreate opcode then
    -- `if (!contextWritable) return error(opcode, stack)`; the CREATE body
    -- (recursive evm call) is outside the embedding.
    if m.writable then .unmodelled else .halt (errorResult none)
  else if isLog opcode then
    -- `if (!contextWritable) return error(opcode, stack)`; the log body is
    -- outside the embedding.
    if m.writable then .unmodelled else .halt (errorResult none)
  else
    match opcode with
    | 0x00 => .next { m with pc := m.code.length + 1 }  -- STOP: `pc = code.length`, then `pc++`
    | 0x50 => .next { m with stack := m.stack.tail, pc := m.pc + 1 }  -- POP: `stack.shift()` discarded
    | 0x01 => exec2Halt [addFn] m
    | 0x02 => exec2Halt [mulFn] m
    | 0x03 => exec2Halt [subFn] m
    | 0x04 => exec2Halt [divFn] m
    | 0x05 => exec2Halt [sdivFn] m
    | 0x06 => exec2Halt [modFn] m
    | 0x07 => exec2Halt [smodFn] m
    | 0x08 => exec2Halt [addFn, modFn] m
    | 0x09 => exec2Halt [mulFn, modFn] m
    | 0x0a => exec2Halt [expFn] m
    | 0x0b => exec2Halt [sextFn] m
    | 0x10 => exec2Halt [ltFn] m
    | 0x11 => exec2Halt [gtFn] m
    | 0x12 => exec2Halt [sltFn] m
    | 0x13 => exec2Halt [sgtFn] m
    | 0x14 => exec2Halt [eqFn] m
    | 0x15 =>
      -- ISZERO: `stack.unshift(stack.shift() == 0n ? 1n : 0n)`; on an empty
      -- stack `undefined == 0n` is false, so 0n is pushed and execution continues.
      match m.stack with
      | [] => .next { m with stack := [0], pc := m.pc + 1 }
      | v :: rest => .next { m with stack := (if v = 0 then 1 else 0) :: rest, pc := m.pc + 1 }
    | 0x16 => exec2Halt [andFn] m
    | 0x17 => exec2Halt [orFn] m
    | 0x18 => exec2Halt [xorFn] m
    | 0x19 =>
      -- NOT: `toUnsigned(~stack.shift()!)`; JS `~v` on a bigint is `-(v+1)`.
      match m.stack with
      | v :: rest => .next { m with stack := toUnsigned (-(v + 1)) :: rest, pc := m.pc + 1 }
      | [] => .unmodelled
    | 0x1a => exec2Halt [byteFn] m
    | 0x1b => exec2Halt [shlFn] m
    | 0x1c => exec2Halt [shrFn] m
    | 0x1d => exec2Halt [sarFn] m
    | 0x30 => .next { m with stack := m.tx.address :: m.stack, pc := m.pc + 1 }   -- ADDRESS
    | 0x32 => .next { m with stack := m.tx.origin :: m.stack, pc := m.pc + 1 }    -- ORIGIN
    | 0x33 => .next { m with stack := m.tx.caller :: m.stack, pc := m.pc + 1 }    -- CALLER
    | 0x34 => .next { m with stack := m.tx.value :: m.stack, pc := m.pc + 1 }     -- CALLVALUE
    | 0x3a => .next { m with stack := m.tx.gasPrice :: m.stack, pc := m.pc + 1 }  -- GASPRICE
    | 0x51 =>
      -- MLOAD: `stack.unshift(mem.load(stack.shift()))`
      match m.stack with
      | offset :: rest =>
        match m.mem.load offset.toNat 32 with
        | some (v, mem) => .next { m with mem := mem, stack := (v : Int) :: rest, pc := m.pc + 1 }
        | none => .unmodelled
      | [] => .unmodelled
    | 0x52 =>
      -- MSTORE: `mem.store(stack.shift(), stack.shift())`
      match m.stack with
      | offset :: value :: rest =>
        .next { m with mem := m.mem.store offset.toNat value.toNat 32, stack := rest, pc := m.pc + 1 }
      | _ => .unmodelled
    | 0x53 =>
      -- MSTORE8: `mem.store(stack.shift(), stack.shift(), 1n)`
      match m.stack with
      | offset :: value :: rest =>
        .next { m with mem := m.mem.store offset.toNat value.toNat 1, stack := rest, pc := m.pc + 1 }
      | _ => .unmodelled
    | 0x54 =>
      -- SLOAD: `stack.unshift(storage.load(stack.shift()))`; with an empty
      -- stack the source reads key "undefined", absent, and pushes 0n.
      match m.stack with
      | key :: rest => .next { m with stack := Storage.load m.storage key :: rest, pc := m.pc + 1 }
      | [] => .next { m with stack := [0], pc := m.pc + 1 }
    | 0x55 =>
      -- SSTORE: writable guard, then `storage.store(stack.shift(), stack.shift())`
      if m.writable then
        match m.stack with
        | key :: value :: rest =>
          .next { m with storage := Storage.store m.storage key value, stack := rest, pc := m.pc + 1 }
        | _ => .unmodelled
      else .halt (errorResult none)
    | 0x56 =>
      -- JUMP: `if (!jump(stack.shift())) return error(...)`; a taken jump
      -- sets `pc = destination` and the loop still applies `pc++`.
      match m.stack with
      | d :: rest =>
        if jumpOk m.code d then .next { m with stack := rest, pc := d.toNat + 1 }
        else .halt (errorResult none)
      | [] => .halt (errorResult none)
    | 0x57 =>
      -- JUMPI: pops destination then conditional; `undefined !== 0n` holds,
      -- so a missing conditional still attempts the jump.
      match m.stack with
      | d :: c :: rest =>
        if c ≠ 0 then
          if jumpOk m.code d then .next { m with stack := rest, pc := d.toNat + 1 }
          else .halt (errorResult none)
        else .next { m with stack := rest, pc := m.pc + 1 }
      | [d] =>
        if jumpOk m.code d then .next { m with stack := [], pc := d.toNat + 1 }
        else .halt (errorResult none)
      | [] => .halt (errorResult none)
    | 0x58 => .next { m with stack := (m.pc : Int) :: m.stack, pc := m.pc + 1 }  -- PC
    | 0x59 => .next { m with stack := (m.mem.msize : Int) :: m.stack, pc := m.pc + 1 }  -- MSIZE
    | 0x5a => .next { m with stack := (UINT256_CEIL - 1) :: m.stack, pc := m.pc + 1 }  -- GAS
    | 0xf1 | 0xf4 | 0xfa =>
      -- CALL/DELEGATECALL/STATICCALL: only CALL is guarded by the writable
      -- flag; the recursive sub-call body is outside the embedding.
      if opcode = 0xf1 ∧ m.writable = false then .halt (errorResult none) else .unmodelled
    | 0xf3 =>
      -- RETURN: `returnValue = mem.load(stack.shift(), stack.shift())` and
      -- the loop CONTINUES (no halt).
      match m.stack with
      | offset :: len :: rest =>
        match m.mem.load offset.toNat len.toNat with
        | some (v, mem) =>
          .next { m with mem := mem, returnValue := some (v : Int), stack := rest, pc := m.pc + 1 }
        | none => .unmodelled
      | _ => .unmodelled
    | 0xfd =>
      -- REVERT: `return error(opcode, stack, mem.load(...))`
      match m.stack with
      | offset :: len :: _ =>
        match m.mem.load offset.toNat len.toNat with
        | some (v, _) => .halt (errorResult (some (v : Int)))
        | none => .unmodelled
      | _ => .unmodelled
    | 0xfe => .halt (errorResult none)  -- INVALID
    | 0xff =>
      -- SELFDESTRUCT: writable guard; the state transfer is outside the embedding.
      if m.writable then .unmodelled else .halt (errorResult none)
    | 0x20 | 0x31 | 0x35 | 0x36 | 0x37 | 0x38 | 0x39 | 0x3b | 0x3c | 0x3d | 0x3e | 0x3f
    | 0x41 | 0x42 | 0x43 | 0x44 | 0x45 | 0x46 | 0x47 | 0x48 => .unmodelled
    | _ =>
      -- no `case` in the switch (e.g. JUMPDEST, CALLCODE 0xf2, BLOCKHASH,
      -- unassigned opcodes): fall through to `pc++`.
      .next { m with pc := m.pc + 1 }

/-- One loop iteration: fetch `code[pc]` and dispatch. -/
def step (m : Machine) : StepResult :=
  stepOp m (m.code.getD m.pc 0)

/-- Outcome of running a frame: the returned `OpResult` together with the
module-level storage left behind, or fuel exhaustion / departure from the
modelled fragment. -/
inductive RunOut where
  | res (r : OpResult) (storage : Storage)
  | unmodelled
  | fuelOut

/-- The `while (pc < code.length)` loop with structural fuel; falling off
the end of the code returns `{success: true, stack, logs, return: returnValue}`. -/
def runFrom : Nat → Machine → RunOut
  | 0, _ => .fuelOut
  | fuel + 1, m =>
    if m.pc < m.code.length then
      match step m with
      | .next m2 => runFrom fuel m2
      | .halt r => .res r m.storage
      | .unmodelled => .unmodelled
    else
      .res { success := true, stack := m.stack, ret := m.returnValue } m.storage

/-- A fresh frame for `evm(code, tx, block, state, contextWritable)` with the
module-level storage in the given state. -/
def mkMachine (code : List Nat) (tx : TransactionData) (writable : Bool) (storage : Storage) : Machine :=
  { code := code, tx := tx, writable := writable, pc := 0, stack := [],
    mem := Memory.empty, storage := storage, returnValue := none }

/-- A transaction envelope whose fields are all zero/empty. -/
def defaultTx : TransactionData :=
  { address := 0, caller := 0, origin := 0, gasPrice := 0, value := 0, data := [] }

/-- Runs `code` in a fresh writable frame with empty storage. -/
def run (code : List Nat) (fuel : Nat) : RunOut :=
  runFrom fuel (mkMachine code defaultTx true [])

/-- The writable flag handed to the recursive `evm` call for a CALL-family
sub-frame, from evm.ts line 1172: the argument is literally
`opcode !== OPCODES.STATICCALL`; the calling frame's `contextWritable`
does not occur in the expression. -/
def callSubWritable (opcode : Nat) : Bool := opcode != 0xfa

/-- Modelled from the spec (§4.5 frame-context derivation table): the
sub-frame of STATICCALL runs with `writable = false`, while CALL, CALLCODE
and DELEGATECALL sub-frames inherit the calling frame's flag. -/
def specSubWritable (opcode : Nat) (contextWritable : Bool) : Bool :=
  if opcode = 0xfa then false else contextWritable

/-- A transaction executing at contract address `0x100`. -/
def txA : TransactionData :=
  { address := 0x100, caller := 0, origin := 0, gasPrice := 0, value := 0, data := [] }

/-- A transaction executing at contract address `0x200`. -/
def txB : TransactionData :=
  { address := 0x200, caller := 0, origin := 0, gasPrice := 0, value := 0, data := [] }

set_option maxRecDepth 400000

theorem toUnsigned_of_nonneg_lt {v : Int} (h0 : 0 ≤ v) (h : v < UINT256_CEIL) :
    toUnsigned v = v := by
  unfold toUnsigned
  rw [if_neg (not_le.mpr h), if_neg (not_lt.mpr h0)]

/-- C1: contrary to the claim, the pre-execution analysis (evm.ts 781-786)
advances `i` by only 2 bytes over every PUSH opcode instead of skipping
`(op − PUSH1 + 1)` immediate bytes.  For the code `PUSH2 0x5b 0x5b` the
source marks offset 2 — the second immediate byte of the PUSH2 — as a
valid destination while the spec's walk marks nothing, and the program
`PUSH1 5; JUMP; PUSH2 0x5b 0x5b` jumps into the middle of the PUSH2
immediate and terminates with `success = true` instead of failing. -/
theorem c1_jumpdest_analysis_diverges :
    validJumpDestinations [0x61, 0x5b, 0x5b] = [2]
      ∧ specValidJumpDestinations [0x61, 0x5b, 0x5b] = []
      ∧ run [0x60, 0x05, 0x56, 0x61, 0x5b, 0x5b] 10 =
          .res { success := true, stack := [], ret := none } [] :=
  ⟨rfl, rfl, rfl⟩

/-- C2: `sextFn` (evm.ts 700-703) compares the entire arithmetically
shifted value with `1n` (so the sign branch fires only when every bit
above the sign position is clear) and then computes
`(UINT256_CEIL - 1n) | val`, which is all-ones regardless of `val`.
Hence `SIGNEXTEND(31, 2^255) = 2^256 − 1` instead of the claimed
`2^255`, and `SIGNEXTEND(0, 0x80) = 2^256 − 1` instead of keeping the
low byte `0x80`; the third conjunct runs `PUSH1 0x80; PUSH1 0; SIGNEXTEND`
end to end. -/
theorem c2_signextend_diverges :
    sextFn 31 (2 ^ 255) = 2 ^ 256 - 1
      ∧ sextFn 0 0x80 = 2 ^ 256 - 1
      ∧ run [0x60, 0x80, 0x60, 0x00, 0x0b] 10 =
          .res { success := true, stack := [2 ^ 256 - 1], ret := none } [] :=
  ⟨by decide, by decide, rfl⟩

/-- C3: the writable flag of a CALL-family sub-frame is the literal
expression `opcode !== OPCODES.STATICCALL` (evm.ts 1172), so a
DELEGATECALL sub-frame of a non-writable frame is writable, contrary to
the claimed inheritance: running `PUSH1 1; PUSH1 2; SSTORE` under the
flag the source hands a DELEGATECALL sub-frame of a `writable = false`
parent succeeds and stores, while under the spec-derived inherited flag
(`false`) the same program fails; the remaining conjuncts check the
writable gates the source does implement (SSTORE, LOG0, CREATE, CALL,
SELFDESTRUCT all fail in a non-writable frame). -/
theorem c3_sub_frame_writable_not_inherited :
    callSubWritable 0xfa = false
      ∧ callSubWritable 0xf4 = true
      ∧ specSubWritable 0xf4 false = false
      ∧ runFrom 10 (mkMachine [0x60, 0x01, 0x60, 0x02, 0x55] defaultTx (callSubWritable 0xf4) []) =
          .res { success := true, stack := [], ret := none } [(2, 1)]
      ∧ runFrom 10 (mkMachine [0x60, 0x01, 0x60, 0x02, 0x55] defaultTx (specSubWritable 0xf4 false) []) =
          .res { success := false, stack := [], ret := none } []
      ∧ runFrom 10 (mkMachine [0xa0] defaultTx false []) =
          .res { success := false, stack := [], ret := none } []
      ∧ runFrom 10 (mkMachine [0xf0] defaultTx false []) =
          .res { success := false, stack := [], ret := none } []
      ∧ runFrom 10 (mkMachine [0xf1] defaultTx false []) =
          .res { success := false, stack := [], ret := none } []
      ∧ runFrom 10 (mkMachine [0xff] defaultTx false []) =
          .res { success := false, stack := [], ret := none } [] :=
  ⟨rfl, rfl, rfl, rfl, rfl, rfl, rfl, rfl, rfl⟩

/-- C4: storage is one module-level map with no address key
(evm.ts 731-732, 991-999).  A frame at address `0x100` runs
`PUSH1 42; PUSH1 1; SSTORE`, and a later frame at the distinct address
`0x200` running `PUSH1 1; SLOAD` on the storage left behind reads back
42 — not the 0 the claimed per-address isolation requires. -/
theorem c4_storage_not_isolated :
    txA.address ≠ txB.address
      ∧ runFrom 10 (mkMachine [0x60, 0x2a, 0x60, 0x01, 0x55] txA true []) =
          .res { success := true, stack := [], ret := none } [(1, 0x2a)]
      ∧ runFrom 10 (mkMachine [0x60, 0x01, 0x54] txB true [(1, 0x2a)]) =
          .res { success := true, stack := [0x2a], ret := none } [(1, 0x2a)] :=
  ⟨by decide, rfl, rfl⟩

/-- C5: stack underflow in DUPn/SWAPn does not terminate the frame — the
source builds `error(opcode, stack)` but discards it (evm.ts 812-827), so
`DUP1` on an empty stack and `SWAP1` on a one-element stack both run to
end of code with `success = true`; and no 1024-element capacity check
exists anywhere: a `DUP1` on a stack already holding 1024 elements
succeeds and grows the stack to 1025. -/
theorem c5_underflow_overflow_not_fatal :
    run [0x80] 10 = .res { success := true, stack := [], ret := none } []
      ∧ run [0x60, 0x01, 0x90] 10 = .res { success := true, stack := [1], ret := none } []
      ∧ ∀ m : Machine, m.code.getD m.pc 0 = 0x80 → m.stack.length = 1024 →
          step m = .next { m with stack := m.stack.getD 0 0 :: m.stack, pc := m.pc + 1 } := by
  refine ⟨rfl, rfl, ?_⟩
  intro m hop hlen
  have h1 : isPush 0x80 = false := rfl
  have h2 : isDup 0x80 = true := rfl
  simp only [step, hop]
  unfold stepOp
  rw [h1, h2]
  simp only [Bool.false_eq_true, if_false, if_true]
  rw [show (0x80 : Nat) - 0x80 = 0 from rfl, hlen]
  norm_num

theorem c5_witness :
    (({ mkMachine [0x80] defaultTx true [] with stack := List.replicate 1024 0 } : Machine).code.getD 0 0 = 0x80)
      ∧ step { mkMachine [0x80] defaultTx true [] with stack := List.replicate 1024 0 } =
          .next { { mkMachine [0x80] defaultTx true [] with stack := List.replicate 1024 0 } with
                  stack := (List.replicate 1024 (0 : Int)).getD 0 0 :: List.replicate 1024 0, pc := 1 } :=
  ⟨rfl, (c5_underflow_overflow_not_fatal.2.2 _ rfl (by simp))⟩

/-- C6: `Memory.store` ends with `this.updateMsize(offset)` — the written
length is omitted (evm.ts 605-610) — so `MSTORE(0, v); MSIZE` reports 0,
not the claimed 32, and `MSTORE8(32, v); MSIZE` reports 32, not the
claimed `ceil(33/32)*32 = 64`; `Memory.load` does pass the length, so
`MLOAD(0); MSIZE` reports 32 as the claim states. -/
theorem c6_msize_ignores_store_length :
    run [0x60, 0x0a, 0x60, 0x00, 0x52, 0x59] 10 =
        .res { success := true, stack := [0], ret := none } []
      ∧ run [0x60, 0x00, 0x51, 0x59] 10 =
        .res { success := true, stack := [32, 0], ret := none } []
      ∧ run [0x60, 0x0a, 0x60, 0x20, 0x53, 0x59] 10 =
        .res { success := true, stack := [32], ret := none } [] :=
  ⟨rfl, rfl, rfl⟩

theorem fdiv_natCast (a b : ℕ) : Int.fdiv (a : ℤ) (b : ℤ) = ((a / b : ℕ) : ℤ) := by
  rw [Int.fdiv_eq_ediv _ (Int.natCast_nonneg b)]
  exact (Int.natCast_div a b).symm

theorem tmod_natCast (a b : ℕ) : Int.tmod (a : ℤ) (b : ℤ) = ((a % b : ℕ) : ℤ) := rfl

theorem shl_mask_mod (n x : ℕ) :
    (x &&& (2 ^ 256 - 1) / 2 ^ n) * 2 ^ n = x * 2 ^ n % 2 ^ 256 := by
  rcases le_or_lt n 256 with hn | hn
  · have hpos : 0 < (2 : ℕ) ^ n := Nat.pos_pow_of_pos n (by norm_num)
    have hmul : (2 : ℕ) ^ (256 - n) * 2 ^ n = 2 ^ 256 := by
      rw [← pow_add]
      congr 1
      omega
    have hsplit : (2 : ℕ) ^ 256 - 1 = (2 ^ n - 1) + (2 ^ (256 - n) - 1) * 2 ^ n := by
      have h2 : (1 : ℕ) ≤ 2 ^ (256 - n) := Nat.pos_pow_of_pos _ (by norm_num)
      have hs : (2 ^ (256 - n) - 1) * 2 ^ n = 2 ^ 256 - 2 ^ n := by
        rw [Nat.sub_mul, one_mul, hmul]
      have h3 : (2 : ℕ) ^ n ≤ 2 ^ 256 := Nat.pow_le_pow_right (by norm_num) hn
      rw [hs]
      omega
    have hdiv : ((2 : ℕ) ^ 256 - 1) / 2 ^ n = 2 ^ (256 - n) - 1 := by
      rw [hsplit, Nat.add_mul_div_right _ _ hpos, Nat.div_eq_of_lt (by omega)]
      omega
    rw [hdiv, Nat.and_pow_two_sub_one_eq_mod, ← hmul, Nat.mul_mod_mul_right]
  · have h256 : (2 : ℕ) ^ 256 ≤ 2 ^ n := Nat.pow_le_pow_right (by norm_num) (le_of_lt hn)
    have hdiv : ((2 : ℕ) ^ 256 - 1) / 2 ^ n = 0 := Nat.div_eq_of_lt (by omega)
    rw [hdiv, Nat.and_zero, Nat.zero_mul]
    have hfac : (2 : ℕ) ^ n = 2 ^ 256 * 2 ^ (n - 256) := by
      rw [← pow_add]
      congr 1
      omega
    rw [hfac]
    have hre : x * (2 ^ 256 * 2 ^ (n - 256)) = (x * 2 ^ (n - 256)) * 2 ^ 256 := by ring
    rw [hre, Nat.mul_mod_left]

theorem ceil_sub_one_cast : UINT256_CEIL - 1 = ((2 ^ 256 - 1 : ℕ) : ℤ) := by decide

theorem jsShr_natCast (x n : ℕ) : jsShr (x : ℤ) (n : ℤ) = ((x / 2 ^ n : ℕ) : ℤ) := by
  unfold jsShr
  rw [if_pos (Int.natCast_nonneg n), Int.toNat_natCast,
    show ((2 : ℤ) ^ n) = ((2 ^ n : ℕ) : ℤ) from by push_cast; ring]
  exact fdiv_natCast x (2 ^ n)

theorem jsShl_natCast (x n : ℕ) : jsShl (x : ℤ) (n : ℤ) = ((x * 2 ^ n : ℕ) : ℤ) := by
  unfold jsShl
  rw [if_pos (Int.natCast_nonneg n), Int.toNat_natCast]
  push_cast
  ring

theorem jsAnd_natCast (x y : ℕ) : jsAnd (x : ℤ) (y : ℤ) = ((x &&& y : ℕ) : ℤ) := by
  unfold jsAnd
  rw [Int.toNat_natCast, Int.toNat_natCast]

theorem shlFn_natCast (n x : ℕ) :
    shlFn (n : ℤ) (x : ℤ) = ((x * 2 ^ n % 2 ^ 256 : ℕ) : ℤ) := by
  unfold shlFn
  rw [ceil_sub_one_cast, jsShr_natCast, jsAnd_natCast, jsShl_natCast, shl_mask_mod]

theorem shrFn_natCast (n x : ℕ) :
    shrFn (n : ℤ) (x : ℤ) = ((x / 2 ^ n : ℕ) : ℤ) := by
  unfold shrFn
  exact jsShr_natCast x n

theorem sar_ge_256 (n x : ℕ) (hn : 256 ≤ n) (hx : x < 2 ^ 256) :
    toUnsigned (sarFn (n : ℤ) (x : ℤ)) = if x < 2 ^ 255 then 0 else 2 ^ 256 - 1 := by
  have hU : UINT256_CEIL = (2 : ℤ) ^ 256 := rfl
  have hhalf : UINT256_CEIL / 2 = (2 : ℤ) ^ 255 := by decide
  have h2nle : (2 : ℕ) ^ 256 ≤ 2 ^ n := Nat.pow_le_pow_right (by norm_num) hn
  unfold sarFn shrFn toSigned
  rcases lt_or_le x (2 ^ 255) with hxs | hxs
  · rw [if_pos (by rw [hhalf]; exact_mod_cast hxs), jsShr_natCast,
      Nat.div_eq_of_lt (lt_of_lt_of_le hx h2nle), if_pos hxs]
    exact toUnsigned_of_nonneg_lt le_rfl (by decide)
  · rw [if_neg (by rw [hhalf]; push_cast; omega)]
    have hdle : 2 ^ 256 - x ≤ 2 ^ 255 := by
      have : (2 : ℕ) ^ 256 = 2 ^ 255 + 2 ^ 255 := by ring
      omega
    have hdpos : 0 < 2 ^ 256 - x := by omega
    have hcast : (UINT256_CEIL - (x : ℤ)) * (-1) = -((2 ^ 256 - x : ℕ) : ℤ) := by
      rw [hU, Nat.cast_sub (le_of_lt hx)]
      push_cast
      ring
    have hdiv : jsShr (-((2 ^ 256 - x : ℕ) : ℤ)) (n : ℤ) = -1 := by
      unfold jsShr
      rw [if_pos (Int.natCast_nonneg n), Int.toNat_natCast,
        Int.fdiv_eq_ediv _ (by positivity)]
      have hsplit : -(((2 ^ 256 - x : ℕ)) : ℤ) =
          ((2 : ℤ) ^ n - ((2 ^ 256 - x : ℕ) : ℤ)) + (-1) * (2 : ℤ) ^ n := by
        ring
      rw [hsplit, Int.add_mul_ediv_right _ _ (by positivity : ((2 : ℤ) ^ n) ≠ 0)]
      have hnum0 : ((2 : ℤ) ^ n - ((2 ^ 256 - x : ℕ) : ℤ)) / (2 : ℤ) ^ n = 0 := by
        apply Int.ediv_eq_zero_of_lt
        · have hle : (((2 ^ 256 - x : ℕ)) : ℤ) ≤ (2 : ℤ) ^ n := by
            calc (((2 ^ 256 - x : ℕ)) : ℤ) ≤ ((2 ^ 255 : ℕ) : ℤ) := by exact_mod_cast hdle
              _ ≤ ((2 ^ n : ℕ) : ℤ) := by
                  exact_mod_cast Nat.pow_le_pow_right (by norm_num) (by omega)
              _ = (2 : ℤ) ^ n := by push_cast; ring
          omega
        · have hp : (0 : ℤ) < ((2 ^ 256 - x : ℕ) : ℤ) := by exact_mod_cast hdpos
          omega
      rw [hnum0]
      ring
    rw [hcast, hdiv, if_neg (not_lt.mpr hxs)]
    decide

theorem exec2_two (f g : Int → Int → Int) (x y : Int) (r : List Int) :
    exec2 [f, g] (x :: y :: r) = exec2 [g] (f x y :: r) := rfl

theorem exec2_one (g : Int → Int → Int) (x y : Int) (r : List Int) :
    exec2 [g] (x :: y :: r) = some (toUnsigned (g x y) :: r) := rfl

/-- C7: the shift opcode functions satisfy the claimed semantics for every
shift amount `n` and word `x`: `shlFn n x = x * 2^n mod 2^256` (the
lower-bits mask `(2^256 − 1) >> n` composed with `<< n` IS a plain left
shift truncated to 256 bits), `shrFn n x = ⌊x / 2^n⌋`, both vanish for
`n ≥ 256`, and for `n ≥ 256` the SAR result pushed by `exec2` (which
applies `toUnsigned`) is 0 for `x < 2^255` and `2^256 − 1` otherwise.
The final two conjuncts restate SHL/SHR at the `exec2` dispatch level. -/
theorem c7_shift_semantics (n x : ℕ) (s : List Int) (hx : x < 2 ^ 256) :
    shlFn (n : ℤ) (x : ℤ) = ((x * 2 ^ n % 2 ^ 256 : ℕ) : ℤ)
      ∧ shrFn (n : ℤ) (x : ℤ) = ((x / 2 ^ n : ℕ) : ℤ)
      ∧ (256 ≤ n → shlFn (n : ℤ) (x : ℤ) = 0 ∧ shrFn (n : ℤ) (x : ℤ) = 0)
      ∧ (256 ≤ n → toUnsigned (sarFn (n : ℤ) (x : ℤ)) =
          if x < 2 ^ 255 then 0 else 2 ^ 256 - 1)
      ∧ exec2 [shlFn] ((n : ℤ) :: (x : ℤ) :: s) = some (((x * 2 ^ n % 2 ^ 256 : ℕ) : ℤ) :: s)
      ∧ exec2 [shrFn] ((n : ℤ) :: (x : ℤ) :: s) = some (((x / 2 ^ n : ℕ) : ℤ) :: s) := by
  have hmodlt : x * 2 ^ n % 2 ^ 256 < 2 ^ 256 := Nat.mod_lt _ (by norm_num)
  have hdivlt : x / 2 ^ n < 2 ^ 256 :=
    lt_of_le_of_lt (Nat.div_le_self x (2 ^ n)) hx
  refine ⟨shlFn_natCast n x, shrFn_natCast n x, fun hn => ⟨?_, ?_⟩,
    fun hn => sar_ge_256 n x hn hx, ?_, ?_⟩
  · have hfac : (2 : ℕ) ^ n = 2 ^ 256 * 2 ^ (n - 256) := by
      rw [← pow_add]
      congr 1
      omega
    have hz : x * 2 ^ n % 2 ^ 256 = 0 := by
      rw [hfac, show x * (2 ^ 256 * 2 ^ (n - 256)) = (x * 2 ^ (n - 256)) * 2 ^ 256 from by ring,
        Nat.mul_mod_left]
    rw [shlFn_natCast, hz]
    norm_num
  · have h2nle : (2 : ℕ) ^ 256 ≤ 2 ^ n := Nat.pow_le_pow_right (by norm_num) hn
    rw [shrFn_natCast, Nat.div_eq_of_lt (lt_of_lt_of_le hx h2nle)]
    norm_num
  · rw [exec2_one, shlFn_natCast,
      toUnsigned_of_nonneg_lt (Int.natCast_nonneg _)
        (by unfold UINT256_CEIL; exact_mod_cast hmodlt)]
  · rw [exec2_one, shrFn_natCast,
      toUnsigned_of_nonneg_lt (Int.natCast_nonneg _)
        (by unfold UINT256_CEIL; exact_mod_cast hdivlt)]

theorem c7_shift_semantics_witness :
    (2 ^ 255 : ℕ) < 2 ^ 256
      ∧ (shlFn ((256 : ℕ) : ℤ) ((2 ^ 255 : ℕ) : ℤ) = ((2 ^ 255 * 2 ^ 256 % 2 ^ 256 : ℕ) : ℤ)
          ∧ shrFn ((256 : ℕ) : ℤ) ((2 ^ 255 : ℕ) : ℤ) = ((2 ^ 255 / 2 ^ 256 : ℕ) : ℤ)
          ∧ (256 ≤ 256 → shlFn ((256 : ℕ) : ℤ) ((2 ^ 255 : ℕ) : ℤ) = 0
              ∧ shrFn ((256 : ℕ) : ℤ) ((2 ^ 255 : ℕ) : ℤ) = 0)
          ∧ (256 ≤ 256 → toUnsigned (sarFn ((256 : ℕ) : ℤ) ((2 ^ 255 : ℕ) : ℤ)) =
              if (2 ^ 255 : ℕ) < 2 ^ 255 then 0 else 2 ^ 256 - 1)
          ∧ exec2 [shlFn] (((256 : ℕ) : ℤ) :: ((2 ^ 255 : ℕ) : ℤ) :: []) =
              some (((2 ^ 255 * 2 ^ 256 % 2 ^ 256 : ℕ) : ℤ) :: [])
          ∧ exec2 [shrFn] (((256 : ℕ) : ℤ) :: ((2 ^ 255 : ℕ) : ℤ) :: []) =
              some (((2 ^ 255 / 2 ^ 256 : ℕ) : ℤ) :: [])) :=
  ⟨by decide, c7_shift_semantics 256 (2 ^ 255) [] (by decide)⟩

/-- C8: division and modulus by zero yield 0, and the ADDMOD/MULMOD
dispatch chains `exec2 [addFn, modFn]` / `exec2 [mulFn, modFn]` compute
the intermediate sum/product at full unbounded width (the operands `a`,
`b` here are arbitrary naturals, not reduced modulo `2^256`) and then
reduce by `n`, returning 0 when `n = 0`. -/
theorem c8_modular_arithmetic (a b n : ℕ) (s : List Int) (hn : n < 2 ^ 256) :
    divFn (a : ℤ) 0 = 0 ∧ modFn (a : ℤ) 0 = 0
      ∧ exec2 [addFn, modFn] ((a : ℤ) :: (b : ℤ) :: (0 : ℤ) :: s) = some (0 :: s)
      ∧ exec2 [mulFn, modFn] ((a : ℤ) :: (b : ℤ) :: (0 : ℤ) :: s) = some (0 :: s)
      ∧ (n ≠ 0 → exec2 [addFn, modFn] ((a : ℤ) :: (b : ℤ) :: (n : ℤ) :: s) =
          some ((((a + b) % n : ℕ) : ℤ) :: s))
      ∧ (n ≠ 0 → exec2 [mulFn, modFn] ((a : ℤ) :: (b : ℤ) :: (n : ℤ) :: s) =
          some ((((a * b) % n : ℕ) : ℤ) :: s)) := by
  have hzero : ∀ v : Int, modFn v 0 = 0 := by intro v; simp [modFn]
  have htu0 : toUnsigned 0 = 0 := by decide
  refine ⟨by simp [divFn], hzero _, ?_, ?_, ?_, ?_⟩
  · rw [exec2_two, exec2_one, hzero, htu0]
  · rw [exec2_two, exec2_one, hzero, htu0]
  · intro h0
    rw [exec2_two, exec2_one]
    have hmod : modFn (addFn (a : ℤ) (b : ℤ)) (n : ℤ) = (((a + b) % n : ℕ) : ℤ) := by
      unfold modFn addFn
      rw [if_neg (by exact_mod_cast h0 : ¬((n : ℤ) = 0)),
        show (a : ℤ) + (b : ℤ) = ((a + b : ℕ) : ℤ) from by push_cast; ring]
      exact tmod_natCast (a + b) n
    rw [hmod, toUnsigned_of_nonneg_lt (Int.natCast_nonneg _) ?_]
    have hlt : (a + b) % n < 2 ^ 256 := lt_trans (Nat.mod_lt _ (Nat.pos_of_ne_zero h0)) hn
    show (((a + b) % n : ℕ) : ℤ) < (2 : ℤ) ^ 256
    exact_mod_cast hlt
  · intro h0
    rw [exec2_two, exec2_one]
    have hmod : modFn (mulFn (a : ℤ) (b : ℤ)) (n : ℤ) = (((a * b) % n : ℕ) : ℤ) := by
      unfold modFn mulFn
      rw [if_neg (by exact_mod_cast h0 : ¬((n : ℤ) = 0)),
        show (a : ℤ) * (b : ℤ) = ((a * b : ℕ) : ℤ) from by push_cast; ring]
      exact tmod_natCast (a * b) n
    rw [hmod, toUnsigned_of_nonneg_lt (Int.natCast_nonneg _) ?_]
    have hlt : (a * b) % n < 2 ^ 256 := lt_trans (Nat.mod_lt _ (Nat.pos_of_ne_zero h0)) hn
    show (((a * b) % n : ℕ) : ℤ) < (2 : ℤ) ^ 256
    exact_mod_cast hlt

theorem c8_modular_arithmetic_witness :
    (5 : ℕ) < 2 ^ 256
      ∧ (divFn ((3 : ℕ) : ℤ) 0 = 0 ∧ modFn ((3 : ℕ) : ℤ) 0 = 0
          ∧ exec2 [addFn, modFn] (((3 : ℕ) : ℤ) :: ((4 : ℕ) : ℤ) :: (0 : ℤ) :: []) = some (0 :: [])
          ∧ exec2 [mulFn, modFn] (((3 : ℕ) : ℤ) :: ((4 : ℕ) : ℤ) :: (0 : ℤ) :: []) = some (0 :: [])
          ∧ ((5 : ℕ) ≠ 0 → exec2 [addFn, modFn] (((3 : ℕ) : ℤ) :: ((4 : ℕ) : ℤ) :: ((5 : ℕ) : ℤ) :: []) =
              some ((((3 + 4) % 5 : ℕ) : ℤ) :: []))
          ∧ ((5 : ℕ) ≠ 0 → exec2 [mulFn, modFn] (((3 : ℕ) : ℤ) :: ((4 : ℕ) : ℤ) :: ((5 : ℕ) : ℤ) :: []) =
              some ((((3 * 4) % 5 : ℕ) : ℤ) :: []))) :=
  ⟨by decide, c8_modular_arithmetic 3 4 5 [] (by decide)⟩

theorem memSize_eq : memSize = 1048576 := rfl

theorem updateMsize_data (m : Memory) (a b : ℕ) : (m.updateMsize a b).data = m.data := by
  unfold Memory.updateMsize
  dsimp only
  split <;> rfl

theorem loadLoop_congr : ∀ (k : ℕ) (m1 m2 : Memory) (off acc : ℕ), m1.data = m2.data →
    m1.loadLoop off acc k = m2.loadLoop off acc k := by
  intro k
  induction k with
  | zero => intro m1 m2 off acc h; rfl
  | succ k ih =>
    intro m1 m2 off acc h
    show m1.loadLoop (off + 1) ((acc <<< 8) ||| m1.data off) k =
      m2.loadLoop (off + 1) ((acc <<< 8) ||| m2.data off) k
    rw [h]
    exact ih m1 m2 (off + 1) _ h

theorem storeN_data_lt : ∀ (k : ℕ) (m : Memory) (off v j : ℕ), j < off →
    (Memory.storeN m off v k).data j = m.data j := by
  intro k
  induction k with
  | zero => intros; rfl
  | succ k ih =>
    intro m off v j hj
    show (Memory.storeN (m.writeByte off ((v >>> (k * 8)) &&& 0xff)) (off + 1) v k).data j = m.data j
    rw [ih _ _ _ _ (by omega)]
    unfold Memory.writeByte
    split
    · exact Function.update_noteq (by omega) _ _
    · rfl

theorem loadLoop_storeN : ∀ (k : ℕ) (m : Memory) (off acc v : ℕ), off + k ≤ memSize →
    (Memory.storeN m off v k).loadLoop off acc k = acc * 2 ^ (8 * k) + v % 2 ^ (8 * k) := by
  intro k
  induction k with
  | zero => intro m off acc v h; simp [Memory.storeN, Memory.loadLoop, Nat.mod_one]
  | succ k ih =>
    intro m off acc v h
    have hoffmem : off < memSize := by rw [memSize_eq] at *; omega
    have hhi : ((v >>> (k * 8)) &&& 0xff) = v / 2 ^ (8 * k) % 2 ^ 8 := by
      rw [Nat.shiftRight_eq_div_pow, show (0xff : ℕ) = 2 ^ 8 - 1 from rfl,
        Nat.and_pow_two_sub_one_eq_mod, Nat.mul_comm k 8]
    have hhilt : ((v >>> (k * 8)) &&& 0xff) < 2 ^ 8 := by
      rw [hhi]
      exact Nat.mod_lt _ (by norm_num)
    show (Memory.storeN (m.writeByte off ((v >>> (k * 8)) &&& 0xff)) (off + 1) v k).loadLoop
      off acc (k + 1) = _
    have hstep : ∀ (mm : Memory), mm.loadLoop off acc (k + 1) =
        mm.loadLoop (off + 1) ((acc <<< 8) ||| mm.data off) k :=
      fun mm => rfl
    rw [hstep]
    have hdata : (Memory.storeN (m.writeByte off ((v >>> (k * 8)) &&& 0xff)) (off + 1) v k).data off =
        (v >>> (k * 8)) &&& 0xff := by
      rw [storeN_data_lt _ _ _ _ _ (by omega)]
      unfold Memory.writeByte
      rw [if_pos hoffmem]
      exact Function.update_same off _ m.data
    rw [hdata]
    have hor : (acc <<< 8) ||| ((v >>> (k * 8)) &&& 0xff) =
        2 ^ 8 * acc + ((v >>> (k * 8)) &&& 0xff) := by
      rw [Nat.shiftLeft_eq, Nat.mul_comm acc (2 ^ 8)]
      exact (Nat.mul_add_lt_is_or hhilt acc).symm
    rw [hor, ih _ _ _ _ (by omega)]
    have hmm : v % 2 ^ (8 * (k + 1)) = v % 2 ^ (8 * k) + 2 ^ (8 * k) * (v / 2 ^ (8 * k) % 2 ^ 8) := by
      rw [show 8 * (k + 1) = 8 * k + 8 from by ring, pow_add]
      exact Nat.mod_mul
    rw [hhi, hmm, show 8 * (k + 1) = 8 * k + 8 from by ring, pow_add]
    ring

/-- C9: memory round trip — storing the 32 big-endian bytes of a word `v`
at `off` and loading 32 bytes back from `off` yields exactly `v`, for any
offset with `off + 32` inside the buffer and any `v < 2^256`. -/
theorem c9_memory_roundtrip (m : Memory) (off v : ℕ) (hoff : off + 32 ≤ memSize)
    (hv : v < 2 ^ 256) :
    ((m.store off v 32).load off 32).map Prod.fst = some v := by
  unfold Memory.store Memory.load
  rw [if_pos (Or.inr hoff)]
  have h1 : ((m.storeN off v 32).updateMsize off 0).loadLoop off 0 32 =
      (m.storeN off v 32).loadLoop off 0 32 :=
    loadLoop_congr 32 _ _ off 0 (updateMsize_data _ _ _)
  have h2 : (m.storeN off v 32).loadLoop off 0 32 = v := by
    rw [loadLoop_storeN 32 m off 0 v hoff,
      show 8 * 32 = 256 from by norm_num, Nat.zero_mul, Nat.zero_add]
    exact Nat.mod_eq_of_lt hv
  rw [Option.map_some']
  exact congrArg some (h1.trans h2)

theorem c9_memory_roundtrip_witness :
    7 + 32 ≤ memSize ∧ (3 : ℕ) < 2 ^ 256
      ∧ ((Memory.empty.store 7 3 32).load 7 32).map Prod.fst = some 3 :=
  ⟨by decide, by decide, c9_memory_roundtrip Memory.empty 7 3 (by decide) (by decide)⟩

/-- C10: POP on an empty stack is a silent no-op (`stack.shift()` returns
`undefined`, which is discarded) and ISZERO on an empty stack pushes 0
(`undefined == 0n` is false); neither halts the frame, and any program
built only from POP (0x50) and ISZERO (0x15) runs to end of code and
returns `success = true` with the frame's final stack. -/
theorem c10_pop_iszero_no_halt (m : Machine) :
    (m.stack = [] → m.code.getD m.pc 0 = 0x50 → step m = .next { m with pc := m.pc + 1 })
      ∧ (m.stack = [] → m.code.getD m.pc 0 = 0x15 →
          step m = .next { m with stack := [0], pc := m.pc + 1 })
      ∧ ∀ fuel, (∀ b ∈ m.code, b = 0x50 ∨ b = 0x15) → m.code.length - m.pc < fuel →
          ∃ st, runFrom fuel m = .res { success := true, stack := st, ret := m.returnValue } m.storage := by
  refine ⟨?_, ?_, ?_⟩
  · intro hstack hop
    obtain ⟨code, tx, w, pc, stack, mem, storage, ret⟩ := m
    dsimp only at hstack hop ⊢
    subst hstack
    simp only [step]
    rw [hop]
    rfl
  · intro hstack hop
    obtain ⟨code, tx, w, pc, stack, mem, storage, ret⟩ := m
    dsimp only at hstack hop ⊢
    subst hstack
    simp only [step]
    rw [hop]
    rfl
  · intro fuel
    induction fuel generalizing m with
    | zero => intro _ hf; omega
    | succ f ih =>
      intro hcode hf
      obtain ⟨code, tx, w, pc, stack, mem, storage, ret⟩ := m
      simp only at hcode hf ⊢
      by_cases hpc : pc < code.length
      · have hmem : code.getD pc 0 ∈ code := by
          rw [List.getD_eq_getElem code 0 hpc]
          exact List.getElem_mem hpc
        rcases hcode _ hmem with hop | hop
        · have hstep : step ⟨code, tx, w, pc, stack, mem, storage, ret⟩ =
              .next ⟨code, tx, w, pc + 1, stack.tail, mem, storage, ret⟩ := by
            simp only [step]
            rw [hop]
            rfl
          show ∃ st, runFrom (f + 1) ⟨code, tx, w, pc, stack, mem, storage, ret⟩ =
            .res { success := true, stack := st, ret := ret } storage
          unfold runFrom
          rw [if_pos hpc, hstep]
          exact ih ⟨code, tx, w, pc + 1, stack.tail, mem, storage, ret⟩ hcode (by simp only; omega)
        · have hnext : ∃ stack2, step ⟨code, tx, w, pc, stack, mem, storage, ret⟩ =
              .next ⟨code, tx, w, pc + 1, stack2, mem, storage, ret⟩ := by
            cases stack with
            | nil =>
              refine ⟨[0], ?_⟩
              simp only [step]
              rw [hop]
              rfl
            | cons v rest =>
              refine ⟨(if v = 0 then 1 else 0) :: rest, ?_⟩
              simp only [step]
              rw [hop]
              rfl
          obtain ⟨stack2, hstep⟩ := hnext
          show ∃ st, runFrom (f + 1) ⟨code, tx, w, pc, stack, mem, storage, ret⟩ =
            .res { success := true, stack := st, ret := ret } storage
          unfold runFrom
          rw [if_pos hpc, hstep]
          exact ih ⟨code, tx, w, pc + 1, stack2, mem, storage, ret⟩ hcode (by simp only; omega)
      · refine ⟨stack, ?_⟩
        unfold runFrom
        rw [if_neg hpc]

theorem c10_pop_iszero_no_halt_witness :
    step (mkMachine [0x50, 0x15] defaultTx true []) =
        .next { mkMachine [0x50, 0x15] defaultTx true [] with pc := 1 }
      ∧ step (mkMachine [0x15] defaultTx true []) =
        .next { mkMachine [0x15] defaultTx true [] with stack := [0], pc := 1 }
      ∧ ∃ st, runFrom 3 (mkMachine [0x50, 0x15] defaultTx true []) =
        .res { success := true, stack := st, ret := none } [] :=
  ⟨(c10_pop_iszero_no_halt (mkMachine [0x50, 0x15] defaultTx true [])).1 rfl rfl,
   (c10_pop_iszero_no_halt (mkMachine [0x15] defaultTx true [])).2.1 rfl rfl,
   (c10_pop_iszero_no_halt (mkMachine [0x50, 0x15] defaultTx true [])).2.2 3 (by decide) (by decide)⟩

end Evm
